import Mathlib

/-!
# Verification of the expense-tracker data pipeline

A shallow embedding of `app.py`: the data model (dated expense rows), CSV
persistence (`init_data`, `load_data`, `save_data`), row filtering
(`month_name_to_num`, `filter_df`), aggregate statistics (`compute_kpis`),
and the add-expense form handler.  Pandas dataframes of the four fixed
columns become `List Row`; the CSV file on disk becomes a `CsvFile`
(header plus raw string records); the possibly-missing file becomes
`Option CsvFile`; float amounts become `ℚ`.  Parsing that raises in
pandas (`pd.to_datetime` on a malformed date, a missing column) becomes
`Option`; `pd.to_numeric(errors := coerce).fillna(0)` becomes a total
function defaulting to `0`.
-/

namespace ExpenseApp

/-- A calendar date, as produced by `pandas.to_datetime(...).dt.date`. -/
structure Date where
  year : Nat
  month : Nat
  day : Nat
deriving DecidableEq, Repr

/-- Gregorian leap-year test (as in Python's `calendar.isleap`). -/
def isLeap (y : Nat) : Bool :=
  (y % 4 == 0 && y % 100 != 0) || y % 400 == 0

/-- Number of days of month `m` of year `y`. -/
def daysInMonth (y m : Nat) : Nat :=
  if m == 2 then (if isLeap y then 29 else 28)
  else if m == 4 || m == 6 || m == 9 || m == 11 then 30
  else 31

/-- A date packed as the number `YYYYMMDD`, for range comparisons (order
correct once month and day are within their calendar bounds). -/
def dateKey (d : Date) : Nat := d.year * 10000 + d.month * 100 + d.day

/-- The dates `pd.to_datetime` accepts without raising: a real calendar
day inside the nanosecond-`Timestamp` range — midnight of 1677-09-22
through 2262-04-11; outside it `to_datetime` raises
`OutOfBoundsDatetime`. -/
def Date.validB (d : Date) : Bool :=
  1 ≤ d.month && d.month ≤ 12 && 1 ≤ d.day && d.day ≤ daysInMonth d.year d.month &&
    16770922 ≤ dateKey d && dateKey d ≤ 22620411

/-- One expense entry after type coercion by `load_data`: the four columns
`date`, `category`, `amount`, `notes`. -/
structure Row where
  date : Date
  category : String
  amount : ℚ
  notes : String
deriving DecidableEq, Repr

/-- The persisted CSV file: a header line and raw string records. -/
structure CsvFile where
  header : List String
  records : List (List String)
deriving DecidableEq, Repr

/-- The four column names of the store. -/
def header4 : List String := ["date", "category", "amount", "notes"]

/-! ## Digit strings -/

/-- Numeric value of a digit character. -/
def digitVal (c : Char) : Nat := c.toNat - 48

/-- Is `c` one of the characters `0`–`9`? -/
def isDigitB (c : Char) : Bool := 48 ≤ c.toNat && c.toNat ≤ 57

/-- Little-endian base-10 digits of `n`, with explicit fuel so that the
recursion is structural (and hence evaluable); `fuel = n` suffices. -/
def digitsRevAux : Nat → Nat → List Nat
  | 0, _ => []
  | fuel + 1, n => if n = 0 then [] else n % 10 :: digitsRevAux fuel (n / 10)

/-- Decimal digit characters of `n`, most significant first (empty for `0`). -/
def natChars (n : Nat) : List Char :=
  (digitsRevAux n n).reverse.map (fun d => Char.ofNat (48 + d))

/-- Pad `cs` on the left with `0` characters to length at least `w`. -/
def padLeft (w : Nat) (cs : List Char) : List Char :=
  List.replicate (w - cs.length) '0' ++ cs

/-- `n` printed in decimal, zero-padded to width `w`. -/
def printNat (w n : Nat) : List Char := padLeft w (natChars n)

/-- Value of a string of digit characters, most significant first. -/
def charsToNat (cs : List Char) : Nat :=
  cs.foldl (fun a c => 10 * a + digitVal c) 0

/-- Parse а non-empty all-digit character string as a natural number. -/
def parseNatChars (cs : List Char) : Option Nat :=
  if cs.isEmpty then none
  else if cs.all isDigitB then some (charsToNat cs) else none

/-- Split a character list on a separator character (like `str.split`). -/
def splitOnChar (sep : Char) : List Char → List (List Char)
  | [] => [[]]
  | c :: cs =>
    if c = sep then [] :: splitOnChar sep cs
    else
      match splitOnChar sep cs with
      | [] => [[c]]
      | g :: gs => (c :: g) :: gs

/-! ## Dates on the wire -/

/-- ISO date parsing, the format `pd.to_datetime` receives from files this
app writes (`YYYY-MM-DD`); anything else makes `pd.to_datetime` raise,
modelled as `none`.  Out-of-range components (month 13, day 32, February
30, …) also raise. -/
def parseDate (s : String) : Option Date :=
  match splitOnChar '-' s.data with
  | [ys, ms, ds] =>
    match parseNatChars ys, parseNatChars ms, parseNatChars ds with
    | some y, some m, some d =>
      if (Date.validB ⟨y, m, d⟩) then some ⟨y, m, d⟩ else none
    | _, _, _ => none
  | _ => none

/-- Serialization of a date by `DataFrame.to_csv`: `str(datetime.date)`,
i.e. zero-padded ISO `YYYY-MM-DD`. -/
def dateToString (d : Date) : String :=
  ⟨printNat 4 d.year ++ '-' :: printNat 2 d.month ++ '-' :: printNat 2 d.day⟩

/-! ## Amounts on the wire -/

/-- Parse an unsigned decimal numeral, with an optional fractional part. -/
def parseDec (cs : List Char) : Option ℚ :=
  match splitOnChar '.' cs with
  | [is] => (parseNatChars is).map (fun n => (n : ℚ))
  | [is, fs] =>
    match parseNatChars is, parseNatChars fs with
    | some i, some f => some ((i : ℚ) + (f : ℚ) / (10 : ℚ) ^ fs.length)
    | _, _ => none
  | _ => none

/-- `pd.to_numeric(x, errors := coerce)` on one cell: a decimal numeral
with optional sign and fractional part parses; anything else is `NaN`,
modelled as `none`. -/
def to_numeric (s : String) : Option ℚ :=
  match s.data with
  | [] => none
  | c :: rest =>
    if c = '-' then (parseDec rest).map (fun q => -q) else parseDec (c :: rest)

/-- An amount with a finite decimal expansion — the exact values a Python
float (binary fraction) can carry, hence the values that occur as
amounts. -/
def FiniteDec (q : ℚ) : Prop := (q.den : Nat) ∣ 10 ^ q.den

instance (q : ℚ) : Decidable (FiniteDec q) :=
  inferInstanceAs (Decidable ((q.den : Nat) ∣ 10 ^ q.den))

/-- Serialization of an amount by `DataFrame.to_csv`: its decimal
expansion with a decimal point (floats print like `5.0`). -/
def ratToString (q : ℚ) : String :=
  let k := q.den
  let scaled := q.num.natAbs * (10 ^ k / q.den)
  ⟨(if q.num < 0 then ['-'] else []) ++
    printNat 1 (scaled / 10 ^ k) ++ '.' :: printNat k (scaled % 10 ^ k)⟩

/-! ## Persistence -/

/-- The raw CSV record `DataFrame.to_csv` writes for one row. -/
def rowToRecord (r : Row) : List String :=
  [dateToString r.date, r.category, ratToString r.amount, r.notes]

/-- The cell texts `pd.read_csv` reads as NaN by default (its
`keep_default_na` sentinel list, including the empty field). -/
def naStrings : List String :=
  ["", "#N/A", "#N/A N/A", "#NA", "-1.#IND", "-1.#QNAN", "-NaN", "-nan",
   "1.#IND", "1.#QNAN", "<NA>", "N/A", "NA", "NULL", "NaN", "None",
   "n/a", "nan", "null"]

/-- What a text cell holds after `pd.read_csv` and `astype(str)`: an NA
sentinel (or empty field) becomes NaN on read and then the literal string
`"nan"`; other cells stay verbatim. -/
def cellToStr (s : String) : String := if s ∈ naStrings then "nan" else s

/-- A row the load coercion leaves fixed: a date `to_datetime` accepts, a
finite-decimal amount, and category/notes cells that are not NA
sentinels. -/
def Row.stable (r : Row) : Prop :=
  Date.validB r.date = true ∧ FiniteDec r.amount ∧
    cellToStr r.category = r.category ∧ cellToStr r.notes = r.notes

instance (r : Row) : Decidable (Row.stable r) :=
  inferInstanceAs (Decidable (Date.validB r.date = true ∧ FiniteDec r.amount ∧
    cellToStr r.category = r.category ∧ cellToStr r.notes = r.notes))

/-- Type coercion of one raw record into a `Row`, as in `load_data`:
`pd.to_datetime` on the date (raising on failure), `read_csv` NA handling
followed by `astype(str)` on category and notes, and
`pd.to_numeric(errors := coerce).fillna(0.0)` on the amount.  (A date
cell that is itself an NA sentinel loads as `NaT` in the program; such
tables are outside this model.) -/
def parseRecord (rec : List String) : Option Row :=
  match rec with
  | [d0, c0, a0, n0] =>
    (parseDate d0).map (fun d => ⟨d, cellToStr c0, (to_numeric a0).getD 0, cellToStr n0⟩)
  | _ => none

/-- Map a fallible function over a list, failing if any element fails
(the behaviour of vectorised pandas coercion over a column). -/
def mapOption (f : α → Option β) : List α → Option (List β)
  | [] => some []
  | a :: l =>
    match f a, mapOption f l with
    | some b, some l' => some (b :: l')
    | _, _ => none

/-- The coercion block of `load_data`: an empty frame is returned as is
(the `if not df.empty` guard); otherwise the four columns must be present
and every record must coerce. -/
def parseTable (f : CsvFile) : Option (List Row) :=
  if f.records.isEmpty then some []
  else if f.header = header4 then mapOption parseRecord f.records
  else none

/-- `init_data`: create the empty four-column file when none exists. -/
def init_data : Option CsvFile → CsvFile
  | none => ⟨header4, []⟩
  | some f => f

/-- `load_data`: ensure the file exists, read it, coerce the column types.
Returns the file as left on disk and the parsed table (`none` when the
coercion raises). -/
def load_data (fs : Option CsvFile) : CsvFile × Option (List Row) :=
  let f := init_data fs
  (f, parseTable f)

/-- `save_data`: write the frame back as CSV. -/
def save_data (df : List Row) : CsvFile :=
  ⟨header4, df.map rowToRecord⟩

/-! ## Filtering -/

/-- The options of the month selectbox: `"All year"` plus the English
month names from `calendar.month_name`. -/
def monthOptions : List String :=
  ["All year", "January", "February", "March", "April", "May", "June",
   "July", "August", "September", "October", "November", "December"]

/-- `month_name_to_num`: `"All year"` and unknown names map to `0`, month
names to their number. -/
def month_name_to_num (name : String) : Nat :=
  if name = "All year" then 0
  else if name = "January" then 1
  else if name = "February" then 2
  else if name = "March" then 3
  else if name = "April" then 4
  else if name = "May" then 5
  else if name = "June" then 6
  else if name = "July" then 7
  else if name = "August" then 8
  else if name = "September" then 9
  else if name = "October" then 10
  else if name = "November" then 11
  else if name = "December" then 12
  else 0

/-- `filter_df`: restrict to the selected year, then to the selected month
unless it maps to `0`, then to the selected categories unless none are
selected.  The helper year/month columns exist only inside the function;
on `List Row` the surviving columns are the original four. -/
def filter_df (df : List Row) (year : Nat) (month_opt : String)
    (categories : List String) : List Row :=
  if df.isEmpty then df
  else
    let df2 := df.filter (fun r => r.date.year == year)
    let m := month_name_to_num month_opt
    let df3 := if m ≠ 0 then df2.filter (fun r => r.date.month == m) else df2
    if ¬ categories.isEmpty then df3.filter (fun r => categories.contains r.category)
    else df3

/-- The row predicate the specification describes: year matches; month
matches unless the whole year is selected; category is among the selected
ones unless none are selected. -/
def keepRow (year : Nat) (month_opt : String) (categories : List String)
    (r : Row) : Bool :=
  decide (r.date.year = year) &&
    (if month_opt = "All year" then true
     else decide (r.date.month = month_name_to_num month_opt)) &&
    (if categories.isEmpty then true else categories.contains r.category)

/-! ## Aggregation -/

/-- Ordering on dates used by the pandas groupby index (chronological). -/
def Date.leb (a b : Date) : Bool :=
  a.year < b.year || (a.year == b.year &&
    (a.month < b.month || (a.month == b.month && a.day ≤ b.day)))

/-- Insert a date into a list sorted by `Date.leb`. -/
def insortDate (d : Date) : List Date → List Date
  | [] => [d]
  | x :: xs => if Date.leb d x then d :: x :: xs else x :: insortDate d xs

/-- Sort a list of dates by `Date.leb` (the sorted groupby index). -/
def sortDates : List Date → List Date
  | [] => []
  | d :: ds => insortDate d (sortDates ds)

/-- Sum of the amounts of the rows falling on date `d`: one group of
`df.groupby("date")["amount"].sum()`. -/
def daySum (df : List Row) (d : Date) : ℚ :=
  ((df.filter (fun r => decide (r.date = d))).map (fun r => r.amount)).sum

/-- `df.groupby("date")["amount"].sum()`: per-day totals, one per distinct
date, indexed in chronological order. -/
def byDay (df : List Row) : List ℚ :=
  (sortDates ((df.map (fun r => r.date)).dedup)).map (daySum df)

/-- Maximum of a list of rationals, `⊥` for the empty list (the value of
`Series.max`). -/
def amax (l : List ℚ) : WithBot ℚ :=
  l.foldr (fun (x : ℚ) (m : WithBot ℚ) => max (x : WithBot ℚ) m) ⊥

/-- `compute_kpis`: the total spend, the mean and the maximum of the
per-day sums, and the record count; all zero on an empty frame. -/
def compute_kpis (df : List Row) : ℚ × ℚ × ℚ × ℚ :=
  if df.isEmpty then (0, 0, 0, 0)
  else
    let total := (df.map (fun r => r.amount)).sum
    let by_day := byDay df
    let avg_day := if by_day.isEmpty then 0 else by_day.sum / (by_day.length : ℚ)
    let max_day := if by_day.isEmpty then 0 else (amax by_day).unbot' 0
    (total, avg_day, max_day, (df.length : ℚ))

/-- The per-day sums as the specification phrases them: for each distinct
date of the table, the sum over all rows of the amount contributed on that
date. -/
def specDailySums (df : List Row) : List ℚ :=
  ((df.map (fun r => r.date)).dedup).map
    (fun d => (df.map (fun r => if r.date = d then r.amount else 0)).sum)

/-! ## The form handler and the page pipeline -/

/-- Whitespace as `str.strip()` sees it (space, tab, newline and the
other ASCII space characters). -/
def isSpace (c : Char) : Bool := c.toNat = 32 || (9 ≤ c.toNat && c.toNat ≤ 13)

/-- Python's `str.strip()`: drop whitespace from both ends. -/
def strip (s : String) : String :=
  ⟨((s.data.dropWhile isSpace).reverse.dropWhile isSpace).reverse⟩

/-- The add-expense form handler: load, append the one new row (category
defaulting to `"Uncategorized"` when the stripped entry is empty), save.
When loading raises, the script run aborts and the file is left as
`init_data` left it. -/
def add_expense (fs : Option CsvFile) (d : Date) (cat : String) (amt : ℚ)
    (note : String) : CsvFile :=
  match load_data fs with
  | (f, none) => f
  | (_, some rows) =>
    save_data (rows ++ [⟨d, if strip cat = "" then "Uncategorized" else cat, amt, note⟩])

/-- One run of the page body: load the file, filter, compute the KPIs.
Returns the file as left on disk and the KPI tuple (`none` when loading
raises). -/
def pipeline (fs : Option CsvFile) (year : Nat) (month_opt : String)
    (categories : List String) : CsvFile × Option (ℚ × ℚ × ℚ × ℚ) :=
  let (f, table) := load_data fs
  (f, table.map (fun rows => compute_kpis (filter_df rows year month_opt categories)))

/-- A small concrete table used to instantiate hypothesis-bearing
theorems: two entries on 2023-01-02 and one on 2023-01-03. -/
def dfW : List Row :=
  [⟨⟨2023, 1, 2⟩, "Food", 5, "a"⟩, ⟨⟨2023, 1, 2⟩, "Bus", 3, "b"⟩,
   ⟨⟨2023, 1, 3⟩, "Food", 10, "c"⟩]

/-- A small concrete stored file whose single record has an unparsable
amount cell. -/
def fileW : CsvFile :=
  ⟨header4, [["2023-01-02", "Food", "abc", "n"]]⟩

/-! ## Digit-string lemmas -/

theorem digitVal_ofNat {d : Nat} (hd : d < 10) :
    digitVal (Char.ofNat (48 + d)) = d := by
  interval_cases d <;> decide

theorem isDigitB_ofNat {d : Nat} (hd : d < 10) :
    isDigitB (Char.ofNat (48 + d)) = true := by
  interval_cases d <;> decide

theorem digitsRevAux_eq : ∀ {fuel n : Nat}, n ≤ fuel → digitsRevAux fuel n = Nat.digits 10 n := by
  intro fuel
  induction fuel with
  | zero =>
    intro n h
    have hn : n = 0 := Nat.le_zero.mp h
    subst hn
    simp [digitsRevAux]
  | succ fuel ih =>
    intro n h
    by_cases hn : n = 0
    · subst hn; simp [digitsRevAux]
    · have hdiv : n / 10 ≤ fuel := by
        have := Nat.div_lt_self (Nat.pos_of_ne_zero hn) (by norm_num : 1 < 10)
        omega
      rw [show digitsRevAux (fuel + 1) n = n % 10 :: digitsRevAux fuel (n / 10) from by
          simp [digitsRevAux, hn],
        ih hdiv, ← Nat.digits_def' (by norm_num : (1 : ℕ) < 10) (Nat.pos_of_ne_zero hn)]

theorem natChars_eq (n : Nat) :
    natChars n = (Nat.digits 10 n).reverse.map (fun d => Char.ofNat (48 + d)) := by
  unfold natChars
  rw [digitsRevAux_eq le_rfl]

theorem natChars_all_digit {n : Nat} : ∀ c ∈ natChars n, isDigitB c = true := by
  intro c hc
  simp only [natChars_eq, List.mem_map, List.mem_reverse] at hc
  obtain ⟨d, hd, rfl⟩ := hc
  exact isDigitB_ofNat (Nat.digits_lt_base (by norm_num) hd)

theorem printNat_all_digit {w n : Nat} : ∀ c ∈ printNat w n, isDigitB c = true := by
  intro c hc
  simp only [printNat, padLeft, List.mem_append, List.mem_replicate] at hc
  rcases hc with ⟨-, rfl⟩ | hc
  · decide
  · exact natChars_all_digit c hc

theorem printNat_ne_nil {w n : Nat} (hw : 1 ≤ w) : printNat w n ≠ [] := by
  intro h
  have := congrArg List.length h
  simp only [printNat, padLeft, List.length_append, List.length_replicate,
    List.length_nil] at this
  omega

theorem charsToNat_aux (L : List Nat) :
    (∀ d ∈ L, d < 10) → ∀ a : Nat,
      List.foldl (fun a c => 10 * a + digitVal c) a
          (L.reverse.map (fun d => Char.ofNat (48 + d)))
        = a * 10 ^ L.length + Nat.ofDigits 10 L := by
  induction L using List.reverseRecOn with
  | nil => intro _ a; simp [Nat.ofDigits]
  | append_singleton L d ih =>
    intro hL a
    have hd : d < 10 := hL d (by simp)
    have hL' : ∀ x ∈ L, x < 10 := fun x hx => hL x (by simp [hx])
    rw [List.reverse_append, List.reverse_singleton, List.singleton_append,
      List.map_cons, List.foldl_cons, digitVal_ofNat hd, ih hL' (10 * a + d),
      Nat.ofDigits_append, Nat.ofDigits_singleton, List.length_append,
      List.length_singleton]
    ring

theorem charsToNat_natChars (n : Nat) : charsToNat (natChars n) = n := by
  have h := charsToNat_aux (Nat.digits 10 n)
    (fun d hd => Nat.digits_lt_base (by norm_num) hd) 0
  simpa [charsToNat, natChars_eq, Nat.ofDigits_digits] using h

theorem charsToNat_padLeft (w : Nat) (cs : List Char) :
    charsToNat (padLeft w cs) = charsToNat cs := by
  have hz : ∀ k, List.foldl (fun a c => 10 * a + digitVal c) 0
      (List.replicate k '0') = 0 := by
    intro k
    induction k with
    | zero => rfl
    | succ k ih => simpa [List.replicate_succ, digitVal] using ih
  simp [charsToNat, padLeft, List.foldl_append, hz]

theorem parseNatChars_printNat (w n : Nat) (hw : 1 ≤ w) :
    parseNatChars (printNat w n) = some n := by
  have hne : ¬ (printNat w n).isEmpty := by
    simpa [List.isEmpty_iff] using printNat_ne_nil (n := n) hw
  have hall : (printNat w n).all isDigitB = true :=
    List.all_eq_true.mpr printNat_all_digit
  simp only [parseNatChars]
  rw [if_neg hne, if_pos hall, printNat, charsToNat_padLeft, charsToNat_natChars]

theorem natChars_length_le {n w : Nat} (h : n < 10 ^ w) :
    (natChars n).length ≤ w := by
  rcases Nat.eq_zero_or_pos n with rfl | hn
  · simp [natChars, digitsRevAux]
  · by_contra hlen
    have hle : 10 ^ (Nat.digits 10 n).length ≤ 10 * n :=
      Nat.base_pow_length_digits_le 10 n (by norm_num) hn.ne'
    have hlen' : w + 1 ≤ (Nat.digits 10 n).length := by
      simp only [natChars_eq, List.length_map, List.length_reverse] at hlen
      omega
    have h1 : (10 : Nat) ^ (w + 1) ≤ 10 ^ (Nat.digits 10 n).length :=
      Nat.pow_le_pow_right (by norm_num) hlen'
    have h2 : (10 : Nat) * 10 ^ w ≤ 10 * n := by
      calc 10 * 10 ^ w = 10 ^ (w + 1) := by ring
      _ ≤ 10 ^ (Nat.digits 10 n).length := h1
      _ ≤ 10 * n := hle
    omega

theorem printNat_length {w n : Nat} (h : n < 10 ^ w) :
    (printNat w n).length = w := by
  have := natChars_length_le h
  simp only [printNat, padLeft, List.length_append, List.length_replicate]
  omega

/-! ## Splitting lemmas -/

theorem splitOnChar_not_mem {sep : Char} {cs : List Char} (h : sep ∉ cs) :
    splitOnChar sep cs = [cs] := by
  induction cs with
  | nil => rfl
  | cons c cs ih =>
    have hcs : sep ∉ cs := fun hm => h (List.mem_cons_of_mem _ hm)
    have hc : ¬ c = sep := fun hc => h (hc ▸ List.mem_cons_self _ _)
    simp only [splitOnChar, if_neg hc, ih hcs]

theorem splitOnChar_append {sep : Char} {xs ys : List Char} (h : sep ∉ xs) :
    splitOnChar sep (xs ++ sep :: ys) = xs :: splitOnChar sep ys := by
  induction xs with
  | nil => simp [splitOnChar]
  | cons x xs ih =>
    have hxs : sep ∉ xs := fun hm => h (List.mem_cons_of_mem _ hm)
    have hx : ¬ x = sep := fun hx => h (hx ▸ List.mem_cons_self _ _)
    simp only [List.cons_append, splitOnChar, if_neg hx, List.append_eq, ih hxs]

theorem not_mem_printNat {sep : Char} {w n : Nat} (h : isDigitB sep = false) :
    sep ∉ printNat w n := by
  intro hm
  have hd := printNat_all_digit sep hm
  rw [h] at hd
  exact absurd hd (by decide)

/-! ## Date round trip -/

theorem parseDate_dateToString {d : Date} (h : Date.validB d = true) :
    parseDate (dateToString d) = some d := by
  have hdash : isDigitB '-' = false := by decide
  have hdata : (dateToString d).data
      = printNat 4 d.year ++ '-' :: (printNat 2 d.month ++ '-' :: printNat 2 d.day) := by
    simp [dateToString]
  unfold parseDate
  rw [hdata, splitOnChar_append (not_mem_printNat hdash),
    splitOnChar_append (not_mem_printNat hdash),
    splitOnChar_not_mem (not_mem_printNat hdash)]
  simp only [parseNatChars_printNat 4 d.year (by norm_num),
    parseNatChars_printNat 2 d.month (by norm_num),
    parseNatChars_printNat 2 d.day (by norm_num)]
  rw [if_pos (show Date.validB ⟨d.year, d.month, d.day⟩ = true from h)]

/-! ## Amount round trip -/

theorem parseDec_print (q : ℚ) (h : FiniteDec q) :
    parseDec (printNat 1 (q.num.natAbs * (10 ^ q.den / q.den) / 10 ^ q.den) ++
        '.' :: printNat q.den (q.num.natAbs * (10 ^ q.den / q.den) % 10 ^ q.den))
      = some ((q.num.natAbs : ℚ) / (q.den : ℚ)) := by
  have hdot : isDigitB '.' = false := by decide
  have hpow : 0 < 10 ^ q.den := pow_pos (by norm_num) _
  set S := q.num.natAbs * (10 ^ q.den / q.den) with hSdef
  have hfp : S % 10 ^ q.den < 10 ^ q.den := Nat.mod_lt _ hpow
  unfold parseDec
  rw [splitOnChar_append (not_mem_printNat hdot),
    splitOnChar_not_mem (not_mem_printNat hdot)]
  simp only [parseNatChars_printNat 1 _ le_rfl,
    parseNatChars_printNat q.den _ (Rat.den_pos q)]
  rw [printNat_length hfp]
  congr 1
  have hS : S * q.den = q.num.natAbs * 10 ^ q.den := by
    rw [hSdef, mul_assoc, Nat.div_mul_cancel h]
  have hten : ((10 : ℚ) ^ q.den) ≠ 0 := by positivity
  have hdQ : ((q.den : ℚ)) ≠ 0 := by
    exact_mod_cast (Rat.den_pos q).ne'
  have hsplitQ : (10 : ℚ) ^ q.den * ((S / 10 ^ q.den : Nat) : ℚ)
      + ((S % 10 ^ q.den : Nat) : ℚ) = (S : ℚ) := by
    exact_mod_cast Nat.div_add_mod S (10 ^ q.den)
  have hSQ : (S : ℚ) * (q.den : ℚ) = (q.num.natAbs : ℚ) * (10 : ℚ) ^ q.den := by
    exact_mod_cast hS
  rw [add_div' _ _ _ hten, div_eq_div_iff hten hdQ]
  linear_combination (q.den : ℚ) * hsplitQ + hSQ

theorem to_numeric_ratToString {q : ℚ} (h : FiniteDec q) :
    to_numeric (ratToString q) = some q := by
  have hdata : (ratToString q).data
      = (if q.num < 0 then ['-'] else []) ++
        (printNat 1 (q.num.natAbs * (10 ^ q.den / q.den) / 10 ^ q.den) ++
          '.' :: printNat q.den (q.num.natAbs * (10 ^ q.den / q.den) % 10 ^ q.den)) := by
    simp [ratToString]
  unfold to_numeric
  rw [hdata]
  by_cases hneg : q.num < 0
  · rw [if_pos hneg, List.singleton_append]
    show (if '-' = '-' then
        (parseDec (printNat 1 (q.num.natAbs * (10 ^ q.den / q.den) / 10 ^ q.den) ++
          '.' :: printNat q.den (q.num.natAbs * (10 ^ q.den / q.den) % 10 ^ q.den))).map
          (fun x => -x)
      else _) = some q
    rw [if_pos rfl, parseDec_print q h]
    have hnum : ((q.num.natAbs : ℚ)) = -((q.num : ℚ)) := by
      rw [Int.cast_natAbs, abs_of_neg hneg, Int.cast_neg]
    simp only [Option.map_some']
    rw [hnum, neg_div, neg_neg, Rat.num_div_den]
  · rw [if_neg hneg, List.nil_append]
    rcases hp : printNat 1 (q.num.natAbs * (10 ^ q.den / q.den) / 10 ^ q.den) with - | ⟨c, cs⟩
    · exact absurd hp (printNat_ne_nil le_rfl)
    · have hc : isDigitB c = true :=
        printNat_all_digit c (by rw [hp]; exact List.mem_cons_self _ _)
      have hcne : ¬ c = '-' := by
        intro hh
        rw [hh] at hc
        exact absurd hc (by decide)
      rw [List.cons_append]
      show (if c = '-' then _ else
        parseDec (c :: (cs ++
          '.' :: printNat q.den (q.num.natAbs * (10 ^ q.den / q.den) % 10 ^ q.den)))) = some q
      rw [if_neg hcne, ← List.cons_append, ← hp, parseDec_print q h]
      have hnum : ((q.num.natAbs : ℚ)) = ((q.num : ℚ)) := by
        rw [Int.cast_natAbs, abs_of_nonneg (not_lt.mp hneg)]
      rw [hnum, Rat.num_div_den]

/-! ## mapOption lemmas -/

theorem mapOption_map {g : α → β} {f : β → Option α} :
    ∀ {l : List α}, (∀ x ∈ l, f (g x) = some x) → mapOption f (l.map g) = some l := by
  intro l
  induction l with
  | nil => intro _; rfl
  | cons a l ih =>
    intro h
    have ha : f (g a) = some a := h a (List.mem_cons_self _ _)
    have hl : mapOption f (l.map g) = some l :=
      ih fun x hx => h x (List.mem_cons_of_mem _ hx)
    simp only [List.map_cons, mapOption, ha, hl]

theorem mapOption_length {f : α → Option β} :
    ∀ {l : List α} {l' : List β}, mapOption f l = some l' → l'.length = l.length := by
  intro l
  induction l with
  | nil =>
    intro l' h
    simp only [mapOption, Option.some_inj] at h
    rw [← h]
    rfl
  | cons a l ih =>
    intro l' h
    simp only [mapOption] at h
    rcases ha : f a with - | b <;> rw [ha] at h
    · exact absurd h (by simp)
    · rcases hl : mapOption f l with - | l₀ <;> rw [hl] at h
      · exact absurd h (by simp)
      · rw [← Option.some_inj.mp h]
        simp [ih hl]

theorem mapOption_get {f : α → Option β} :
    ∀ {l : List α} {l' : List β}, mapOption f l = some l' →
      ∀ i (hi : i < l.length) (hi' : i < l'.length),
        f (l.get ⟨i, hi⟩) = some (l'.get ⟨i, hi'⟩) := by
  intro l
  induction l with
  | nil => intro l' _ i hi; exact absurd hi (by simp)
  | cons a l ih =>
    intro l' h i hi hi'
    simp only [mapOption] at h
    rcases ha : f a with - | b <;> rw [ha] at h
    · exact absurd h (by simp)
    · rcases hl : mapOption f l with - | l₀ <;> rw [hl] at h
      · exact absurd h (by simp)
      · rcases Option.some_inj.mp h with rfl
        cases i with
        | zero => simpa using ha
        | succ i =>
          have hi2 : i < l.length := by simpa using hi
          have hi2' : i < l₀.length := by simpa using hi'
          simpa using ih hl i hi2 hi2'

/-! ## Per-row round trip -/

theorem parseRecord_rowToRecord {r : Row} (h : Row.stable r) :
    parseRecord (rowToRecord r) = some r := by
  obtain ⟨hd, ha, hc, hn⟩ := h
  simp only [rowToRecord, parseRecord, parseDate_dateToString hd,
    to_numeric_ratToString ha, Option.map_some', Option.getD_some, hc, hn]

theorem insortDate_perm (d : Date) (l : List Date) : List.Perm (insortDate d l) (d :: l) := by
  induction l with
  | nil => exact List.Perm.refl _
  | cons x xs ih =>
    simp only [insortDate]
    by_cases hle : Date.leb d x
    · rw [if_pos hle]
    · rw [if_neg hle]
      exact (ih.cons x).trans (List.Perm.swap d x xs)

theorem sortDates_perm (l : List Date) : List.Perm (sortDates l) l := by
  induction l with
  | nil => exact List.Perm.refl _
  | cons d ds ih => exact (insortDate_perm d (sortDates ds)).trans (ih.cons d)

theorem amax_perm {l₁ l₂ : List ℚ} (p : List.Perm l₁ l₂) : amax l₁ = amax l₂ := by
  unfold amax
  exact @List.Perm.foldr_eq ℚ (WithBot ℚ)
    (fun (x : ℚ) (m : WithBot ℚ) => max (x : WithBot ℚ) m) l₁ l₂
    ⟨fun _ _ _ => max_left_comm _ _ _⟩ p ⊥

theorem amax_ne_bot {l : List ℚ} (h : l ≠ []) : amax l ≠ ⊥ := by
  cases l with
  | nil => exact absurd rfl h
  | cons x xs =>
    intro hc
    have hc' : max (x : WithBot ℚ) (amax xs) = ⊥ := hc
    have hx := le_max_left (x : WithBot ℚ) (amax xs)
    rw [hc'] at hx
    exact absurd (le_bot_iff.mp hx) WithBot.coe_ne_bot

theorem le_amax {x : ℚ} {l : List ℚ} (hx : x ∈ l) : (x : WithBot ℚ) ≤ amax l := by
  induction l with
  | nil => cases hx
  | cons y ys ih =>
    rcases List.mem_cons.mp hx with rfl | hmem
    · exact le_max_left _ _
    · exact le_trans (ih hmem) (le_max_right _ _)

theorem amax_unbot_mem : ∀ {l : List ℚ}, l ≠ [] → (amax l).unbot' 0 ∈ l := by
  intro l
  induction l with
  | nil => intro h; exact absurd rfl h
  | cons x xs ih =>
    intro hxx
    cases xs with
    | nil =>
      show ((max (x : WithBot ℚ) (amax [])).unbot' 0) ∈ [x]
      rw [show amax ([] : List ℚ) = ⊥ from rfl, max_eq_left bot_le, WithBot.unbot'_coe]
      exact List.mem_cons_self _ _
    | cons y ys =>
      have hne : (y :: ys : List ℚ) ≠ [] := by simp
      rcases hm : amax (y :: ys) with - | m
      · exact absurd hm (amax_ne_bot hne)
      · show (max (x : WithBot ℚ) (amax (y :: ys))).unbot' 0 ∈ x :: y :: ys
        rw [hm]
        have hcoe : (max (x : WithBot ℚ) (some m) : WithBot ℚ)
            = ((max x m : ℚ) : WithBot ℚ) := (WithBot.coe_max x m).symm
        rw [hcoe, WithBot.unbot'_coe]
        rcases max_choice x m with hx | hm2
        · rw [hx]; exact List.mem_cons_self _ _
        · rw [hm2]
          have h2 := ih hne
          rw [hm] at h2
          exact List.mem_cons_of_mem _ (show m ∈ y :: ys from h2)

theorem amax_ub {l : List ℚ} (h : l ≠ []) {x : ℚ} (hx : x ∈ l) :
    x ≤ (amax l).unbot' 0 := by
  rcases hm : amax l with - | m
  · exact absurd hm (amax_ne_bot h)
  · show x ≤ m
    have h1 := le_amax hx
    rw [hm] at h1
    exact WithBot.coe_le_coe.mp h1

/-! ## Summation lemmas -/

theorem sum_map_ite_eq_daySum (df : List Row) (d : Date) :
    (df.map (fun r => if r.date = d then r.amount else 0)).sum = daySum df d := by
  induction df with
  | nil => rfl
  | cons r l ih =>
    by_cases hr : r.date = d
    · simp only [List.map_cons, List.sum_cons, if_pos hr, ih]
      show r.amount + daySum l d = daySum (r :: l) d
      unfold daySum
      rw [List.filter_cons, if_pos (by simp [hr])]
      simp
    · simp only [List.map_cons, List.sum_cons, if_neg hr, ih, zero_add]
      show daySum l d = daySum (r :: l) d
      unfold daySum
      rw [List.filter_cons, if_neg (by simp [hr])]

theorem sum_map_filter_split (p : Row → Bool) (df : List Row) :
    (df.map (fun r => r.amount)).sum
      = ((df.filter p).map (fun r => r.amount)).sum
        + ((df.filter (fun r => ! p r)).map (fun r => r.amount)).sum := by
  induction df with
  | nil => simp
  | cons r l ih =>
    by_cases hp : p r <;> simp [List.filter_cons, hp, ih] <;> ring

theorem daySum_filter_ne {df : List Row} {d d' : Date} (hne : d' ≠ d) :
    daySum (df.filter (fun r => ! decide (r.date = d))) d' = daySum df d' := by
  unfold daySum
  rw [List.filter_filter]
  have heq : df.filter (fun a => decide (a.date = d') && ! decide (a.date = d))
      = df.filter (fun r => decide (r.date = d')) :=
    List.filter_congr fun r _ => by
      by_cases h1 : r.date = d' <;> simp [h1, hne]
  rw [heq]

theorem sum_filter_partition :
    ∀ (ds : List Date) (df : List Row), ds.Nodup → (∀ r ∈ df, r.date ∈ ds) →
      (df.map (fun r => r.amount)).sum = (ds.map (daySum df)).sum := by
  intro ds
  induction ds with
  | nil =>
    intro df _ hcov
    cases df with
    | nil => rfl
    | cons r l => exact absurd (hcov r (List.mem_cons_self _ _)) (List.not_mem_nil _)
  | cons d ds ih =>
    intro df hnd hcov
    have hnd' : ds.Nodup := (List.nodup_cons.mp hnd).2
    have hdnotin : d ∉ ds := (List.nodup_cons.mp hnd).1
    have hcovB : ∀ r ∈ df.filter (fun r => ! decide (r.date = d)), r.date ∈ ds := by
      intro r hr
      rw [List.mem_filter] at hr
      rcases List.mem_cons.mp (hcov r hr.1) with h1 | h2
      · exfalso
        have hb := hr.2
        rw [h1] at hb
        simp at hb
      · exact h2
    have hBsum := ih (df.filter (fun r => ! decide (r.date = d))) hnd' hcovB
    have hmapeq : ds.map (daySum (df.filter (fun r => ! decide (r.date = d))))
        = ds.map (daySum df) :=
      List.map_congr_left fun d' hd' =>
        daySum_filter_ne fun hc => hdnotin (hc ▸ hd')
    rw [List.map_cons, List.sum_cons,
      sum_map_filter_split (fun r => decide (r.date = d)) df, ← hmapeq, ← hBsum]
    rfl

/-! ## byDay bridges -/

theorem byDay_perm_spec (df : List Row) : List.Perm (byDay df) (specDailySums df) := by
  unfold byDay specDailySums
  have h1 : ((df.map (fun r => r.date)).dedup).map
      (fun d => (df.map (fun r => if r.date = d then r.amount else 0)).sum)
      = ((df.map (fun r => r.date)).dedup).map (daySum df) :=
    List.map_congr_left fun d _ => sum_map_ite_eq_daySum df d
  rw [h1]
  exact (sortDates_perm _).map (daySum df)

theorem byDay_ne_nil {df : List Row} (h : df ≠ []) : byDay df ≠ [] := by
  unfold byDay
  intro hc
  rw [List.map_eq_nil_iff] at hc
  have h2 := (sortDates_perm ((df.map (fun r => r.date)).dedup)).length_eq
  rw [hc] at h2
  have h3 : (df.map (fun r => r.date)).dedup = [] := List.length_eq_zero.mp h2.symm
  rw [List.dedup_eq_nil, List.map_eq_nil_iff] at h3
  exact h h3

theorem total_eq_byDay_sum (df : List Row) :
    (df.map (fun r => r.amount)).sum = (byDay df).sum := by
  have hperm : List.Perm (byDay df) (((df.map (fun r => r.date)).dedup).map (daySum df)) :=
    (sortDates_perm _).map (daySum df)
  rw [hperm.sum_eq]
  exact sum_filter_partition _ df (List.nodup_dedup _)
    fun r hr => List.mem_dedup.mpr (List.mem_map.mpr ⟨r, hr, rfl⟩)

/-! ## Filtering helper lemmas -/

theorem natBeq_decide (a b : Nat) : (a == b) = decide (a = b) := by
  by_cases h : a = b <;> simp [h]

theorem month_num_zero_iff {month_opt : String} (hm : month_opt ∈ monthOptions) :
    month_name_to_num month_opt = 0 ↔ month_opt = "All year" := by
  fin_cases hm <;> simp [month_name_to_num]

theorem compute_kpis_eq {df : List Row} (h : df ≠ []) :
    compute_kpis df
      = ((df.map (fun r => r.amount)).sum,
         (byDay df).sum / ((byDay df).length : ℚ),
         (amax (byDay df)).unbot' 0,
         (df.length : ℚ)) := by
  have hdfE : ¬ (df.isEmpty = true) := by simpa [List.isEmpty_iff] using h
  have hbdE : ¬ ((byDay df).isEmpty = true) := by
    simpa [List.isEmpty_iff] using byDay_ne_nil h
  unfold compute_kpis
  rw [if_neg hdfE]
  dsimp only
  rw [if_neg hbdE, if_neg hbdE]

/-! ## Claim theorems: filtering and aggregation -/

/-- C1: `filter_df` keeps exactly the rows matching the selected year, the
selected month (no restriction for "All year"), and the selected
categories (no restriction when none are selected); the result is a
sublist of the input with the same four columns. -/
theorem spec_C1 (df : List Row) (year : Nat) (month_opt : String)
    (categories : List String) (hm : month_opt ∈ monthOptions) :
    filter_df df year month_opt categories
      = df.filter (keepRow year month_opt categories) := by
  by_cases hdf : df.isEmpty = true
  · rw [List.isEmpty_iff.mp hdf]
    rfl
  · unfold filter_df
    rw [if_neg hdf]
    dsimp only
    by_cases hcat : categories.isEmpty = true
    · rw [if_neg (not_not_intro hcat)]
      by_cases hm0 : month_name_to_num month_opt = 0
      · have hAll : month_opt = "All year" := (month_num_zero_iff hm).mp hm0
        rw [if_neg (show ¬ month_name_to_num month_opt ≠ 0 from fun hh => hh hm0)]
        exact List.filter_congr fun r _ => by
          simp [keepRow, natBeq_decide, hAll, hcat]
      · have hAll : ¬ month_opt = "All year" :=
          fun hh => hm0 ((month_num_zero_iff hm).mpr hh)
        rw [if_pos hm0, List.filter_filter]
        exact List.filter_congr fun r _ => by
          simp [keepRow, natBeq_decide, hAll, hcat, Bool.and_comm]
    · rw [if_pos hcat]
      by_cases hm0 : month_name_to_num month_opt = 0
      · have hAll : month_opt = "All year" := (month_num_zero_iff hm).mp hm0
        rw [if_neg (show ¬ month_name_to_num month_opt ≠ 0 from fun hh => hh hm0),
          List.filter_filter]
        exact List.filter_congr fun r _ => by
          simp [keepRow, natBeq_decide, hAll, hcat, Bool.and_comm]
      · have hAll : ¬ month_opt = "All year" :=
          fun hh => hm0 ((month_num_zero_iff hm).mpr hh)
        rw [if_pos hm0, List.filter_filter, List.filter_filter]
        exact List.filter_congr fun r _ => by
          simp [keepRow, natBeq_decide, hAll, hcat, Bool.and_comm,
            Bool.and_assoc, Bool.and_left_comm]

theorem spec_C1_witness :
    filter_df dfW 2023 "March" ["Food"]
      = dfW.filter (keepRow 2023 "March" ["Food"]) :=
  spec_C1 dfW 2023 "March" ["Food"] (by decide)

/-- C2: on a non-empty table `compute_kpis` returns the sum of all
amounts, the mean of the per-day sums, and the maximum of the per-day
sums (characterised as a member that bounds all per-day sums). -/
theorem spec_C2 (df : List Row) (h : df ≠ []) :
    (compute_kpis df).1 = (df.map (fun r => r.amount)).sum ∧
    (compute_kpis df).2.1 = (specDailySums df).sum / ((specDailySums df).length : ℚ) ∧
    (compute_kpis df).2.2.1 ∈ specDailySums df ∧
    ∀ x ∈ specDailySums df, x ≤ (compute_kpis df).2.2.1 := by
  have hbd : byDay df ≠ [] := byDay_ne_nil h
  have hperm := byDay_perm_spec df
  rw [compute_kpis_eq h]
  refine ⟨rfl, ?_, ?_, ?_⟩
  · rw [hperm.sum_eq, hperm.length_eq]
  · exact hperm.mem_iff.mp (amax_unbot_mem hbd)
  · intro x hx
    exact amax_ub hbd (hperm.mem_iff.mpr hx)

theorem spec_C2_witness :
    (compute_kpis dfW).1 = (dfW.map (fun r => r.amount)).sum ∧
    (compute_kpis dfW).2.1
      = (specDailySums dfW).sum / ((specDailySums dfW).length : ℚ) ∧
    (compute_kpis dfW).2.2.1 ∈ specDailySums dfW ∧
    ∀ x ∈ specDailySums dfW, x ≤ (compute_kpis dfW).2.2.1 :=
  spec_C2 dfW (by decide)

/-- C9: on the empty table `filter_df` returns its argument unchanged for
every selection and `compute_kpis` returns the all-zero tuple. -/
theorem spec_C9 (year : Nat) (month_opt : String) (categories : List String) :
    filter_df [] year month_opt categories = [] ∧ compute_kpis [] = (0, 0, 0, 0) :=
  ⟨rfl, rfl⟩

/-- C10: the total equals the sum of the per-day sums, the mean of the
per-day sums times the number of distinct dates equals the total, and the
mean never exceeds the maximum. -/
theorem spec_C10 (df : List Row) (h : df ≠ []) :
    (compute_kpis df).1 = (byDay df).sum ∧
    (compute_kpis df).2.1 * (((df.map (fun r => r.date)).dedup).length : ℚ)
      = (compute_kpis df).1 ∧
    (compute_kpis df).2.1 ≤ (compute_kpis df).2.2.1 := by
  have hbd : byDay df ≠ [] := byDay_ne_nil h
  have hlen0 : (byDay df).length ≠ 0 := fun hc => hbd (List.length_eq_zero.mp hc)
  have hlen : ((byDay df).length : ℚ) ≠ 0 := by exact_mod_cast hlen0
  rw [compute_kpis_eq h]
  refine ⟨total_eq_byDay_sum df, ?_, ?_⟩
  · have hL : (((df.map (fun r => r.date)).dedup).length : ℚ)
        = ((byDay df).length : ℚ) := by
      unfold byDay
      rw [List.length_map, (sortDates_perm _).length_eq]
    rw [hL, div_mul_cancel₀ _ hlen, total_eq_byDay_sum df]
  · have hub : ∀ x ∈ byDay df, x ≤ (amax (byDay df)).unbot' 0 :=
      fun x hx => amax_ub hbd hx
    have hsum := List.sum_le_card_nsmul (byDay df) ((amax (byDay df)).unbot' 0) hub
    rw [nsmul_eq_mul] at hsum
    have hpos : (0 : ℚ) < ((byDay df).length : ℚ) := by
      have := List.length_pos.mpr hbd
      exact_mod_cast this
    rw [div_le_iff₀ hpos]
    calc (byDay df).sum
        ≤ ((byDay df).length : ℚ) * ((amax (byDay df)).unbot' 0) := hsum
      _ = ((amax (byDay df)).unbot' 0) * ((byDay df).length : ℚ) := mul_comm _ _

theorem spec_C10_witness :
    (compute_kpis dfW).1 = (byDay dfW).sum ∧
    (compute_kpis dfW).2.1 * (((dfW.map (fun r => r.date)).dedup).length : ℚ)
      = (compute_kpis dfW).1 ∧
    (compute_kpis dfW).2.1 ≤ (compute_kpis dfW).2.2.1 :=
  spec_C10 dfW (by decide)

/-- C7: the pipeline is a pure function of the file contents and the
selections: re-running it on the file state the previous run left behind
changes nothing — same KPI outputs, same file. -/
theorem spec_C7 (fs : Option CsvFile) (year : Nat) (month_opt : String)
    (categories : List String) :
    pipeline (some (pipeline fs year month_opt categories).1) year month_opt categories
      = pipeline fs year month_opt categories := by
  cases fs <;> rfl

/-! ## Claim theorems: persistence -/

/-- C3: whenever `load_data` succeeds, it returns one row per stored
record, and any record whose amount cell fails numeric parsing yields a
row whose amount is zero. -/
theorem spec_C3 (fs : Option CsvFile) (f : CsvFile) (rows : List Row)
    (h : load_data fs = (f, some rows)) :
    rows.length = f.records.length ∧
    ∀ i (hi : i < f.records.length) (hr : i < rows.length) (d0 c0 a0 n0 : String),
      f.records.get ⟨i, hi⟩ = [d0, c0, a0, n0] → to_numeric a0 = none →
      (rows.get ⟨i, hr⟩).amount = 0 := by
  have hf : init_data fs = f := congrArg Prod.fst h
  have hp : parseTable (init_data fs) = some rows := congrArg Prod.snd h
  subst hf
  unfold parseTable at hp
  by_cases hemp : (init_data fs).records.isEmpty = true
  · rw [if_pos hemp] at hp
    have hrows : rows = [] := (Option.some_inj.mp hp).symm
    have hrec : (init_data fs).records = [] := List.isEmpty_iff.mp hemp
    constructor
    · rw [hrows, hrec]
      rfl
    · intro i hi
      rw [hrec] at hi
      exact absurd hi (by simp)
  · rw [if_neg hemp] at hp
    by_cases hhd : (init_data fs).header = header4
    · rw [if_pos hhd] at hp
      refine ⟨mapOption_length hp, ?_⟩
      intro i hi hr d0 c0 a0 n0 hrec hnum
      have hget := mapOption_get hp i hi hr
      rw [hrec] at hget
      have hget2 : (parseDate d0).map
          (fun d => (⟨d, cellToStr c0, (to_numeric a0).getD 0, cellToStr n0⟩ : Row))
          = some (rows.get ⟨i, hr⟩) := hget
      rcases hd : parseDate d0 with - | dd <;> rw [hd] at hget2
      · exact absurd hget2 (by simp)
      · have h3 : (⟨dd, cellToStr c0, (to_numeric a0).getD 0, cellToStr n0⟩ : Row)
            = rows.get ⟨i, hr⟩ := by
          simpa using hget2
        rw [← h3]
        show (to_numeric a0).getD 0 = 0
        rw [hnum]
        rfl
    · rw [if_neg hhd] at hp
      exact absurd hp (by simp)

theorem spec_C3_witness :
    (([(⟨⟨2023, 1, 2⟩, "Food", 0, "n"⟩ : Row)]).get ⟨0, zero_lt_one⟩).amount = 0 :=
  (spec_C3 (some fileW) fileW [⟨⟨2023, 1, 2⟩, "Food", 0, "n"⟩] (by decide)).2
    0 zero_lt_one zero_lt_one "2023-01-02" "Food" "abc" "n" rfl (by decide)

/-- C6: the persisted format is always the plain four-column table:
`init_data` creates the empty file with exactly the four named columns,
and every file `save_data` writes has that header and four fields in
every record. -/
theorem spec_C6 (df : List Row) :
    init_data none = ⟨["date", "category", "amount", "notes"], []⟩ ∧
    (save_data df).header = ["date", "category", "amount", "notes"] ∧
    ∀ rec ∈ (save_data df).records, rec.length = 4 := by
  refine ⟨rfl, rfl, ?_⟩
  intro rec hrec
  simp only [save_data, List.mem_map] at hrec
  obtain ⟨r, -, rfl⟩ := hrec
  rfl

theorem spec_C6_witness :
    (rowToRecord ⟨⟨2023, 1, 2⟩, "Food", 5, "x"⟩).length = 4 :=
  (spec_C6 [⟨⟨2023, 1, 2⟩, "Food", 5, "x"⟩]).2.2 _ (List.mem_cons_self _ _)

/-- C8 counterexample: submitting the form over a store whose record has
an unparsable amount does not save the previously stored row back
unchanged — the cell `"abc"` is rewritten as `"0.0"`. -/
theorem spec_C8_cex :
    (add_expense (some fileW) ⟨2024, 1, 1⟩ "X" 1 "m").records.take 1
      ≠ fileW.records := by
  decide

/-- C8 (amended): submitting the add-expense form appends exactly one new
row — with the entered date, amount and note, and category
`"Uncategorized"` when the entry is blank — and saves every previously
loaded row back in re-serialized (type-coerced) form; stored text that
does not round-trip, such as an unparsable amount, is rewritten. -/
theorem spec_C8 (fs : Option CsvFile) (f : CsvFile) (rows : List Row)
    (d : Date) (cat : String) (amt : ℚ) (note : String)
    (h : load_data fs = (f, some rows)) :
    add_expense fs d cat amt note
      = save_data (rows ++ [⟨d, if strip cat = "" then "Uncategorized" else cat, amt, note⟩]) ∧
    (add_expense fs d cat amt note).records
      = rows.map rowToRecord
        ++ [rowToRecord ⟨d, if strip cat = "" then "Uncategorized" else cat, amt, note⟩] := by
  have h1 : add_expense fs d cat amt note
      = save_data (rows ++ [⟨d, if strip cat = "" then "Uncategorized" else cat, amt, note⟩]) := by
    unfold add_expense
    rw [h]
  refine ⟨h1, ?_⟩
  rw [h1]
  simp [save_data]

theorem spec_C8_witness :
    add_expense (some ⟨header4, []⟩) ⟨2023, 1, 2⟩ " " 5 "m"
      = save_data [⟨⟨2023, 1, 2⟩, "Uncategorized", 5, "m"⟩] := by
  have h := (spec_C8 (some ⟨header4, []⟩) ⟨header4, []⟩ [] ⟨2023, 1, 2⟩ " " 5 "m" rfl).1
  rw [h]
  rfl

end ExpenseApp
